import Mathlib

/-!
# Verification of the xiaozhi-assistant core against its specification

A shallow embedding, in Lean 4, of the pure core of the
`custom_components/xiaozhi` integration:

* `audio.py` — the binary audio-frame codec and the OGG/Opus container
  builder/parser (`_ogg_crc32`, `_build_ogg_page`, `_build_ogg_opus_stream`,
  `unpack_audio_frame`, `_parse_ogg_opus_packets`);
* `base_ws.py` + `const.py` — the exponential-backoff reconnect delay;
* `models.py` — `PipelineCacheManager` and its collectors;
* `client.py` — voice-session registration/arbitration.

Bytes are modelled as `Nat` (with explicit `&&& 0xFFFFFFFF` / `% 256`
masks exactly where the Python code masks or packs fixed-width fields);
byte strings as `List Nat`; Python dicts as insertion-ordered association
lists; `asyncio` futures as an explicit state enum.  Streaming loops are
modelled with an explicit fuel argument large enough that it can never be
exhausted (each iteration of the Python loop consumes at least 27 bytes
of input, the fuel is `input length + 1`).
-/

namespace Xiaozhi

/-! ## Byte-level helpers (struct.pack fields)

`leBytes k n` is the `k`-byte little-endian encoding of `n`
(`struct.pack` `"<H"`, `"<I"`, `"<q"`; the `q` field of an OGG page is
signed, but every granule position the builder produces is nonnegative
and far below `2^63`, where the signed and unsigned encodings agree). -/

def leBytes : Nat → Nat → List Nat
  | 0, _ => []
  | k + 1, n => n % 256 :: leBytes k (n / 256)

theorem leBytes_length (k n : Nat) : (leBytes k n).length = k := by
  induction k generalizing n with
  | zero => rfl
  | succ k ih => simp [leBytes, ih]

/-- The two-byte big-endian encoding used by `struct.Struct(">BBH")`. -/
def be16 (n : Nat) : List Nat := [(n / 256) % 256, n % 256]

/-! ## OGG CRC-32 (`audio.py` lines 29–47)

```python
_OGG_CRC_TABLE = [0] * 256
for _i in range(256):
    _r = _i << 24
    for _ in range(8):
        _r = ((_r << 1) ^ 0x04C11DB7) if _r & 0x80000000 else _r << 1
    _OGG_CRC_TABLE[_i] = _r & 0xFFFFFFFF
```
The table is a memoisation of an 8-step shift-and-xor on `i << 24`; we
model entry `i` as that computation. -/

/-- One iteration of the table-seeding inner loop. -/
def crcTableStep (r : Nat) : Nat :=
  if r &&& 0x80000000 ≠ 0 then (r <<< 1) ^^^ 0x04C11DB7 else r <<< 1

/-- `_OGG_CRC_TABLE[i]`: eight seeding steps on `i << 24`, masked to 32 bits. -/
def oggCrcTable (i : Nat) : Nat :=
  (crcTableStep^[8] (i <<< 24)) &&& 0xFFFFFFFF

/-- `_ogg_crc32_lookup(crc, byte)`. -/
def oggCrc32Lookup (crc byte : Nat) : Nat :=
  (crc <<< 8) ^^^ oggCrcTable (((crc >>> 24) &&& 0xFF) ^^^ byte)

/-- `_ogg_crc32(data)`: fold the table lookup over the bytes, masking the
accumulator to 32 bits after each byte. -/
def oggCrc32 (data : List Nat) : Nat :=
  data.foldl (fun crc b => (oggCrc32Lookup crc b) &&& 0xFFFFFFFF) 0

/-! ## OGG page construction (`_build_ogg_page`, lines 50–94) -/

/-- The `"OggS"` capture pattern. -/
def oggSBytes : List Nat := [0x4F, 0x67, 0x67, 0x53]

/-- The segment-table entries produced for one packet of length `dataLen`:

```python
while data_len >= 255:
    segment_table.append(255)
    data_len -= 255
segment_table.append(data_len)
```

The `fuel` argument bounds the loop; each iteration removes 255 from
`dataLen`, so fuel `dataLen` (as passed by `segLens`) is never exhausted. -/
def segLensGo : Nat → Nat → List Nat
  | 0, dataLen => [dataLen]
  | fuel + 1, dataLen =>
    if 255 ≤ dataLen then 255 :: segLensGo fuel (dataLen - 255) else [dataLen]

/-- The segment table for one packet of length `dataLen`. -/
def segLens (dataLen : Nat) : List Nat := segLensGo dataLen dataLen

/-- `_build_ogg_page(serial, page_seq, granule, flags, segments_data)`:
header (`struct.pack("<4sBBqIIIB", ...)` with CRC placeholder 0) ++
segment table ++ body, then the OGG CRC of the whole page is patched in
at byte offset 22.  `struct.pack` field widths are made total with the
matching masks (all call sites stay in range, where `pack` would raise). -/
def buildOggPage (serial pageSeq granule flags : Nat)
    (segmentsData : List (List Nat)) : List Nat :=
  let segmentTable := (segmentsData.map (fun seg => segLens seg.length)).flatten
  let body := segmentsData.flatten
  let numSegments := segmentTable.length
  let pageNoCrc :=
    oggSBytes ++ [0 % 256, flags % 256] ++ leBytes 8 granule ++
      leBytes 4 serial ++ leBytes 4 pageSeq ++ leBytes 4 0 ++
      [numSegments % 256] ++ segmentTable ++ body
  let crc := oggCrc32 pageNoCrc
  pageNoCrc.take 22 ++ leBytes 4 crc ++ pageNoCrc.drop 26

/-! ## OGG/Opus stream construction (`_build_ogg_opus_stream`, lines 97–139) -/

/-- The stream serial number `0x58495A48` (`"XIZH"`). -/
def xizhSerial : Nat := 0x58495A48

/-- `struct.pack("<8sBBHIhB", b"OpusHead", 1, channels, 312, sample_rate, 0, 0)`.
`b"OpusHead"` in ASCII is `[79, 112, 117, 115, 72, 101, 97, 100]`. -/
def opusHeadBytes (sampleRate channels : Nat) : List Nat :=
  [79, 112, 117, 115, 72, 101, 97, 100] ++ [1, channels % 256] ++
    leBytes 2 312 ++ leBytes 4 sampleRate ++ leBytes 2 0 ++ [0]

/-- `struct.pack("<8sI", b"OpusTags", 7) + b"xiaozhi" + struct.pack("<I", 0)`.
`b"OpusTags"` is `[79, 112, 117, 115, 84, 97, 103, 115]`, `b"xiaozhi"` is
`[120, 105, 97, 111, 122, 104, 105]` (vendor length 7, zero user comments). -/
def opusTagsBytes : List Nat :=
  [79, 112, 117, 115, 84, 97, 103, 115] ++ leBytes 4 7 ++
    [120, 105, 97, 111, 122, 104, 105] ++ leBytes 4 0

/-- The audio pages of the stream: one page per packet, page sequence
starting at 2, granule position accumulating 960 samples per packet, the
last page flagged EOS (`0x04`).  `total` is `len(opus_packets)`, `i` the
running index, `granule` the running granule position. -/
def buildAudioPages (total : Nat) : List (List Nat) → Nat → Nat → List Nat
  | [], _, _ => []
  | packet :: rest, i, granule =>
    let granule2 := granule + 960
    let flags := if i = total - 1 then 0x04 else 0
    buildOggPage xizhSerial (i + 2) granule2 flags [packet] ++
      buildAudioPages total rest (i + 1) granule2

/-- `_build_ogg_opus_stream(opus_packets, sample_rate, channels)`:
page 0 (BOS, OpusHead), page 1 (OpusTags), then one page per packet. -/
def buildOggOpusStream (opusPackets : List (List Nat))
    (sampleRate channels : Nat) : List Nat :=
  buildOggPage xizhSerial 0 0 0x02 [opusHeadBytes sampleRate channels] ++
    (buildOggPage xizhSerial 1 0 0 [opusTagsBytes] ++
      buildAudioPages opusPackets.length opusPackets 0 0)

/-! ## Binary WebSocket frames (`pack_audio_frame` / `unpack_audio_frame`,
lines 142–162).  Header format `">BBH"`: type, reserved, size (BE). -/

def BINARY_FRAME_TYPE_AUDIO : Nat := 0

/-- `_FRAME_HEADER.size` for `">BBH"`. -/
def frameHeaderSize : Nat := 4

/-- `pack_audio_frame(opus_data)`. -/
def pack_audio_frame (opusData : List Nat) : List Nat :=
  BINARY_FRAME_TYPE_AUDIO :: 0 :: be16 opusData.length ++ opusData

/-- `unpack_audio_frame(data)`: `None` if the data is shorter than the
4-byte header, the type byte is not audio, or the payload slice
`data[4 : 4 + size]` is shorter than the declared size. -/
def unpack_audio_frame (data : List Nat) : Option (List Nat) :=
  if data.length < frameHeaderSize then none
  else
    let frameType := data.getD 0 0
    let size := (data.getD 2 0) * 256 + data.getD 3 0
    if frameType ≠ BINARY_FRAME_TYPE_AUDIO then none
    else
      let payload := (data.drop frameHeaderSize).take size
      if payload.length ≠ size then none
      else some payload

/-! ## OGG/Opus stream parsing (`_parse_ogg_opus_packets`, lines 165–230)

The Python generator reads from a stream; every `readexactly` failure
(`IncompleteReadError`) and a lost `"OggS"` sync break the loop, after
which any pending partial packet is flushed.  We model one loop
iteration's reads as `parsePage` (returning the segment table, the page
data, and the remaining stream, or `none` on any of the breaks). -/

/-- One page's worth of reads: sync pattern, 23 remaining header bytes
(of which byte 22 is `num_segments`), the segment table, and
`sum(segment_table)` bytes of data. -/
def parsePage (s : List Nat) :
    Option (List Nat × List Nat × List Nat) :=
  if 4 ≤ s.length ∧ s.take 4 = oggSBytes then
    let s1 := s.drop 4
    if 23 ≤ s1.length then
      let headerRest := s1.take 23
      let numSegments := headerRest.getD 22 0
      let s2 := s1.drop 23
      if numSegments ≤ s2.length then
        let segmentTable := s2.take numSegments
        let s3 := s2.drop numSegments
        let total := segmentTable.sum
        if total ≤ s3.length then
          some (segmentTable, s3.take total, s3.drop total)
        else none
      else none
    else none
  else none

/-- The per-page segment walk (lines 216–224): each segment's slice is
appended to the pending packet (kept here already concatenated); a
segment shorter than 255 terminates the packet, which is yielded if
nonempty.  Returns the yielded packets and the pending remainder. -/
def segmentsToPackets : List Nat → List Nat → List Nat →
    List (List Nat) × List Nat
  | pending, [], _ => ([], pending)
  | pending, segLen :: rest, data =>
    let pending2 := pending ++ data.take segLen
    if segLen < 255 then
      let r := segmentsToPackets [] rest (data.drop segLen)
      (if pending2 = [] then r.1 else pending2 :: r.1, r.2)
    else
      segmentsToPackets pending2 rest (data.drop segLen)

/-- End-of-stream flush (lines 226–230): the pending partial packet is
yielded if nonempty. -/
def flushPending (pending : List Nat) : List (List Nat) :=
  if pending = [] then [] else [pending]

/-- The page loop.  `pageIndex` counts fully read pages; the first two
(OpusHead, OpusTags) are skipped.  The fuel argument only bounds the
recursion: each iteration consumes at least 27 bytes of `s`, so with
fuel `s.length + 1` (as used by `parseOggOpusPackets`) the fuel never
runs out before the stream does. -/
def parseLoopF : Nat → Nat → List Nat → List Nat → List (List Nat)
  | 0, _, pending, _ => flushPending pending
  | fuel + 1, pageIndex, pending, s =>
    match parsePage s with
    | none => flushPending pending
    | some (segmentTable, dat, rest) =>
      if pageIndex + 1 ≤ 2 then
        parseLoopF fuel (pageIndex + 1) pending rest
      else
        let r := segmentsToPackets pending segmentTable dat
        r.1 ++ parseLoopF fuel (pageIndex + 1) r.2 rest

/-- `_parse_ogg_opus_packets`, as a function from the whole input byte
stream to the list of yielded packets. -/
def parseOggOpusPackets (s : List Nat) : List (List Nat) :=
  parseLoopF (s.length + 1) 0 [] s

/-! ## Segment-table lemmas -/

theorem segLensGo_eq (fuel n : Nat) (h : n ≤ fuel + 254) :
    segLensGo fuel n = List.replicate (n / 255) 255 ++ [n % 255] := by
  induction fuel generalizing n with
  | zero =>
    have e1 : n / 255 = 0 := by omega
    have e2 : n % 255 = n := by omega
    simp [segLensGo, e1, e2]
  | succ fuel ih =>
    by_cases h255 : 255 ≤ n
    · have e1 : (n - 255) / 255 = n / 255 - 1 := by omega
      have e2 : (n - 255) % 255 = n % 255 := by omega
      have e3 : n / 255 = (n / 255 - 1) + 1 := by omega
      rw [segLensGo, if_pos h255, ih (n - 255) (by omega), e1, e2, e3,
        List.replicate_succ, List.cons_append]
      simp
    · have e1 : n / 255 = 0 := by omega
      have e2 : n % 255 = n := by omega
      simp [segLensGo, if_neg h255, e1, e2]

theorem segLens_eq (n : Nat) :
    segLens n = List.replicate (n / 255) 255 ++ [n % 255] :=
  segLensGo_eq n n (by omega)

theorem segLens_sum (n : Nat) : (segLens n).sum = n := by
  rw [segLens_eq]
  simp [List.sum_replicate, smul_eq_mul]
  omega

theorem segLens_length (n : Nat) : (segLens n).length = n / 255 + 1 := by
  rw [segLens_eq]; simp

theorem segLens_length_le {n : Nat} (h : n ≤ 65024) :
    (segLens n).length ≤ 255 := by
  rw [segLens_length]; omega

/-! ## Structure of a single-packet page -/

/-- The first 22 bytes of a page header (everything before the CRC field). -/
def pageFront (serial pageSeq granule flags : Nat) : List Nat :=
  oggSBytes ++ [0, flags % 256] ++ leBytes 8 granule ++
    leBytes 4 serial ++ leBytes 4 pageSeq

theorem pageFront_length (serial pageSeq granule flags : Nat) :
    (pageFront serial pageSeq granule flags).length = 22 := by
  simp [pageFront, oggSBytes, leBytes_length]

/-- The bytes of a page from the segment-count byte on, for a
single-packet page. -/
def pageTail (p : List Nat) : List Nat :=
  [(segLens p.length).length % 256] ++ segLens p.length ++ p

/-- A single-packet page, exploded into header-before-CRC, CRC field and
tail.  (`[p].map (segLens ∘ length) |>.flatten = segLens p.length` and
`[p].flatten = p`.) -/
theorem buildOggPage_single (serial pageSeq granule flags : Nat) (p : List Nat) :
    buildOggPage serial pageSeq granule flags [p] =
      pageFront serial pageSeq granule flags ++
        leBytes 4 (oggCrc32 (pageFront serial pageSeq granule flags ++
          leBytes 4 0 ++ pageTail p)) ++ pageTail p := by
  unfold buildOggPage
  have hflat : ([p].map fun seg => segLens seg.length).flatten = segLens p.length := by
    simp
  have hbody : ([p] : List (List Nat)).flatten = p := by simp
  simp only [hflat, hbody]
  have hpage :
      oggSBytes ++ [0 % 256, flags % 256] ++ leBytes 8 granule ++
        leBytes 4 serial ++ leBytes 4 pageSeq ++ leBytes 4 0 ++
        [(segLens p.length).length % 256] ++ segLens p.length ++ p =
      (pageFront serial pageSeq granule flags ++ leBytes 4 0) ++ pageTail p := by
    simp [pageFront, pageTail, List.append_assoc]
  rw [hpage]
  have h22 : ((pageFront serial pageSeq granule flags ++ leBytes 4 0) ++
      pageTail p).take 22 = pageFront serial pageSeq granule flags := by
    rw [List.append_assoc]
    exact List.take_left' (pageFront_length ..)
  have h26 : ((pageFront serial pageSeq granule flags ++ leBytes 4 0) ++
      pageTail p).drop 26 = pageTail p := by
    refine List.drop_left' ?_
    simp [pageFront_length, leBytes_length]
  rw [h22, h26, List.append_assoc]

theorem buildOggPage_single_length (serial pageSeq granule flags : Nat)
    (p : List Nat) :
    (buildOggPage serial pageSeq granule flags [p]).length =
      27 + (segLens p.length).length + p.length := by
  rw [buildOggPage_single]
  simp [pageFront_length, pageTail, leBytes_length]
  omega

/-! ## Parsing a well-formed page -/

/-- `parsePage` on a well-formed page: 4 sync bytes, 22 further header
bytes, the segment-count byte, a segment table of at most 255 entries,
and exactly `T.sum` bytes of page data. -/
theorem parsePage_generic (pre22 T data rest : List Nat)
    (hpre : pre22.length = 22) (hT : T.length ≤ 255)
    (hdata : data.length = T.sum) :
    parsePage (oggSBytes ++ ((pre22 ++ [T.length % 256]) ++ (T ++ (data ++ rest)))) =
      some (T, data, rest) := by
  have hns : T.length % 256 = T.length := Nat.mod_eq_of_lt (by omega)
  have h4 : oggSBytes.length = 4 := rfl
  have hX23 : (pre22 ++ [T.length % 256]).length = 23 := by simp [hpre]
  simp only [parsePage]
  rw [List.take_left' h4, List.drop_left' h4]
  rw [if_pos ⟨by simp [oggSBytes], rfl⟩]
  rw [List.take_left' hX23, List.drop_left' hX23]
  rw [if_pos (by
    simp only [List.length_append, List.length_cons, List.length_nil, hpre]
    omega)]
  rw [List.getD_append_right _ _ _ _ (le_of_eq hpre)]
  rw [hpre]
  simp only [Nat.sub_self, List.getD_cons_zero, hns]
  rw [List.take_left, List.drop_left]
  rw [if_pos (by simp)]
  rw [List.take_left' hdata, List.drop_left' hdata]
  rw [if_pos (by simp [hdata])]

/-- `parsePage` on a page built for a single packet, given that the
packet fits in one page's 255 segments. -/
theorem parsePage_buildOggPage (serial pageSeq granule flags : Nat)
    (p rest : List Nat) (hlen : p.length ≤ 65024) :
    parsePage (buildOggPage serial pageSeq granule flags [p] ++ rest) =
      some (segLens p.length, p, rest) := by
  rw [buildOggPage_single]
  have hs : (pageFront serial pageSeq granule flags ++
        leBytes 4 (oggCrc32 (pageFront serial pageSeq granule flags ++
          leBytes 4 0 ++ pageTail p)) ++ pageTail p) ++ rest =
      oggSBytes ++
        ((([0, flags % 256] ++ leBytes 8 granule ++ leBytes 4 serial ++
          leBytes 4 pageSeq ++
          leBytes 4 (oggCrc32 (pageFront serial pageSeq granule flags ++
            leBytes 4 0 ++ pageTail p))) ++ [(segLens p.length).length % 256]) ++
        (segLens p.length ++ (p ++ rest))) := by
    simp [pageFront, pageTail, List.append_assoc]
  rw [hs]
  exact parsePage_generic _ _ _ _ (by simp [leBytes_length])
    (segLens_length_le hlen) (segLens_sum p.length).symm

/-! ## The per-page segment walk -/

theorem segmentsToPackets_replicate (k : Nat) :
    ∀ pending data r, r < 255 →
    segmentsToPackets pending (List.replicate k 255 ++ [r]) data =
      (flushPending (pending ++ data.take (255 * k + r)), []) := by
  induction k with
  | zero =>
    intro pending data r hr
    simp only [List.replicate, List.nil_append]
    rw [segmentsToPackets, if_pos hr, segmentsToPackets]
    simp [flushPending]
  | succ k ih =>
    intro pending data r hr
    simp only [List.replicate_succ, List.cons_append]
    rw [segmentsToPackets, if_neg (by omega)]
    rw [ih (pending ++ data.take 255) (data.drop 255) r hr]
    have key : List.take (255 * (k + 1) + r) data =
        List.take 255 data ++ List.take (255 * k + r) (List.drop 255 data) := by
      rw [show 255 * (k + 1) + r = 255 + (255 * k + r) from by ring, List.take_add]
    rw [key, ← List.append_assoc]

/-- Walking the segment table built for one packet over exactly that
packet's bytes terminates the packet: the pending data plus the whole
packet is flushed, and nothing stays pending. -/
theorem segmentsToPackets_segLens (pending p : List Nat) :
    segmentsToPackets pending (segLens p.length) p =
      (flushPending (pending ++ p), []) := by
  rw [segLens_eq,
    segmentsToPackets_replicate _ pending p _ (Nat.mod_lt _ (by omega))]
  have harith : 255 * (p.length / 255) + p.length % 255 = p.length := by omega
  rw [harith, List.take_length]

/-! ## The page loop on built streams -/

/-- One iteration of the page loop on a single-packet page: the page is
skipped if it is one of the first two, otherwise its segments are walked. -/
theorem parseLoopF_page (fuel idx : Nat) (pending : List Nat)
    (serial pageSeq granule flags : Nat) (p rest : List Nat)
    (hlen : p.length ≤ 65024) :
    parseLoopF (fuel + 1) idx pending
        (buildOggPage serial pageSeq granule flags [p] ++ rest) =
      if idx + 1 ≤ 2 then parseLoopF fuel (idx + 1) pending rest
      else
        (segmentsToPackets pending (segLens p.length) p).1 ++
          parseLoopF fuel (idx + 1)
            (segmentsToPackets pending (segLens p.length) p).2 rest := by
  simp only [parseLoopF,
    parsePage_buildOggPage serial pageSeq granule flags p rest hlen]

theorem buildAudioPages_length_ge (total : Nat) (pkts : List (List Nat)) :
    ∀ (i granule : Nat),
      pkts.length ≤ (buildAudioPages total pkts i granule).length := by
  induction pkts with
  | nil => simp [buildAudioPages]
  | cons p rest ih =>
    intro i granule
    simp only [buildAudioPages, List.length_append, List.length_cons]
    have h1 := ih (i + 1) (granule + 960)
    have h2 := buildOggPage_single_length xizhSerial (i + 2) (granule + 960)
      (if i = total - 1 then 0x04 else 0) p
    omega

/-- An empty stream just flushes the pending packet, whatever the fuel. -/
theorem parseLoopF_nil_stream (fuel idx : Nat) (pending : List Nat) :
    parseLoopF fuel idx pending [] = flushPending pending := by
  cases fuel with
  | zero => rfl
  | succ f =>
    have hpp : parsePage [] = none := by simp [parsePage]
    simp [parseLoopF, hpp]

/-- Parsing the audio pages of a built stream, starting past the two
header pages, yields the packet list and continues with whatever follows. -/
theorem parseLoopF_buildAudioPages (total : Nat) (pkts : List (List Nat))
    (hval : ∀ p ∈ pkts, p ≠ [] ∧ p.length ≤ 65024) :
    ∀ (fuel idx i granule : Nat) (tail : List Nat), 2 ≤ idx →
      parseLoopF (fuel + pkts.length) idx []
          (buildAudioPages total pkts i granule ++ tail) =
        pkts ++ parseLoopF fuel (idx + pkts.length) [] tail := by
  induction pkts with
  | nil =>
    intro fuel idx i granule tail hidx
    simp [buildAudioPages]
  | cons p rest ih =>
    intro fuel idx i granule tail hidx
    have hp := hval p (by simp)
    simp only [buildAudioPages, List.length_cons, List.append_assoc]
    have hfuel : fuel + (rest.length + 1) = (fuel + rest.length) + 1 := by omega
    rw [hfuel, parseLoopF_page _ idx [] _ _ _ _ _ _ hp.2, if_neg (by omega),
      segmentsToPackets_segLens]
    simp only [List.nil_append]
    rw [flushPending, if_neg hp.1]
    rw [ih (fun q hq => hval q (by simp [hq])) fuel (idx + 1) (i + 1)
      (granule + 960) tail (by omega)]
    have hidx2 : idx + 1 + rest.length = idx + (rest.length + 1) := by omega
    rw [hidx2]
    simp

theorem opusHeadBytes_length (sampleRate channels : Nat) :
    (opusHeadBytes sampleRate channels).length = 19 := by
  simp [opusHeadBytes, leBytes_length]

theorem opusTagsBytes_length : opusTagsBytes.length = 23 := by
  simp [opusTagsBytes, leBytes_length]

/-- C1: for every sequence of valid (non-empty) opus packets, building an
OGG/Opus container from the sequence and then parsing that container back
yields exactly the original packet sequence: the two header pages are
skipped, 255-byte segments are reassembled with their terminating
<255-byte segment, and the packets come out in order.  (A valid opus
packet is nonempty and at most 65024 bytes — real opus packets are well
below that — so its segment table fits a page's one-byte segment count.) -/
theorem claim1_ogg_roundtrip (packets : List (List Nat))
    (sampleRate channels : Nat)
    (hne : ∀ p ∈ packets, p ≠ [])
    (hlen : ∀ p ∈ packets, p.length ≤ 65024) :
    parseOggOpusPackets (buildOggOpusStream packets sampleRate channels) =
      packets := by
  unfold parseOggOpusPackets buildOggOpusStream
  have hhead : (opusHeadBytes sampleRate channels).length ≤ 65024 := by
    rw [opusHeadBytes_length]; omega
  have htags : opusTagsBytes.length ≤ 65024 := by
    rw [opusTagsBytes_length]; omega
  have hlen0 := buildOggPage_single_length xizhSerial 0 0 0x02
    (opusHeadBytes sampleRate channels)
  have hlen1 := buildOggPage_single_length xizhSerial 1 0 0 opusTagsBytes
  have haudio := buildAudioPages_length_ge packets.length packets 0 0
  set N := (buildOggPage xizhSerial 0 0 0x02 [opusHeadBytes sampleRate channels] ++
    (buildOggPage xizhSerial 1 0 0 [opusTagsBytes] ++
      buildAudioPages packets.length packets 0 0)).length with hN
  have hNval : packets.length + 2 ≤ N := by
    rw [hN]
    simp only [List.length_append]
    omega
  rw [parseLoopF_page N 0 [] _ _ _ _ _ _ hhead, if_pos (by omega)]
  obtain ⟨m, hm⟩ : ∃ m, N = m + 1 := ⟨N - 1, by omega⟩
  rw [hm]
  rw [parseLoopF_page m 1 [] _ _ _ _ _ _ htags, if_pos (by omega)]
  obtain ⟨f, rfl⟩ : ∃ f, m = f + packets.length :=
    ⟨m - packets.length, by omega⟩
  rw [← List.append_nil (buildAudioPages packets.length packets 0 0)]
  rw [parseLoopF_buildAudioPages packets.length packets
    (fun p hp => ⟨hne p hp, hlen p hp⟩) f 2 0 0 [] (by omega)]
  rw [parseLoopF_nil_stream]
  simp [flushPending]

/-! ## C3: the CRC field of a built page -/

/-- The bytes of a page from the segment-count byte on, for arbitrary
`segments_data`. -/
def pageTailSegs (segmentsData : List (List Nat)) : List Nat :=
  [((segmentsData.map fun seg => segLens seg.length).flatten).length % 256] ++
    (segmentsData.map fun seg => segLens seg.length).flatten ++
    segmentsData.flatten

/-- A page, exploded into header-before-CRC, CRC field and tail. -/
theorem buildOggPage_eq (serial pageSeq granule flags : Nat)
    (segmentsData : List (List Nat)) :
    buildOggPage serial pageSeq granule flags segmentsData =
      pageFront serial pageSeq granule flags ++
        leBytes 4 (oggCrc32 (pageFront serial pageSeq granule flags ++
          leBytes 4 0 ++ pageTailSegs segmentsData)) ++
        pageTailSegs segmentsData := by
  simp only [buildOggPage]
  have hpage :
      oggSBytes ++ [0 % 256, flags % 256] ++ leBytes 8 granule ++
        leBytes 4 serial ++ leBytes 4 pageSeq ++ leBytes 4 0 ++
        [((segmentsData.map fun seg => segLens seg.length).flatten).length % 256] ++
        (segmentsData.map fun seg => segLens seg.length).flatten ++
        segmentsData.flatten =
      (pageFront serial pageSeq granule flags ++ leBytes 4 0) ++
        pageTailSegs segmentsData := by
    simp [pageFront, pageTailSegs, List.append_assoc]
  rw [hpage]
  have h22 : ((pageFront serial pageSeq granule flags ++ leBytes 4 0) ++
      pageTailSegs segmentsData).take 22 =
      pageFront serial pageSeq granule flags := by
    rw [List.append_assoc]
    exact List.take_left' (pageFront_length ..)
  have h26 : ((pageFront serial pageSeq granule flags ++ leBytes 4 0) ++
      pageTailSegs segmentsData).drop 26 = pageTailSegs segmentsData := by
    refine List.drop_left' ?_
    simp [pageFront_length, leBytes_length]
  rw [h22, h26, List.append_assoc]

/-- Modelled from the spec's description of the standard OGG CRC-32: a
plain MSB-first shift-register CRC with polynomial `0x04C11DB7`, initial
value 0, no input or output reflection and no final xor, processing one
bit at a time (no lookup table).  Used as the independent reference the
table-driven `oggCrc32` is compared against. -/
def crcBitStep (r : Nat) : Nat :=
  if r &&& 0x80000000 ≠ 0 then ((r <<< 1) ^^^ 0x04C11DB7) &&& 0xFFFFFFFF
  else (r <<< 1) &&& 0xFFFFFFFF

/-- One byte of the bitwise reference CRC: xor the byte into the top of
the register and run eight shift-register steps. -/
def crcByteBitwise (crc b : Nat) : Nat :=
  crcBitStep (crcBitStep (crcBitStep (crcBitStep (crcBitStep (crcBitStep
    (crcBitStep (crcBitStep (crc ^^^ ((b &&& 0xFF) <<< 24)))))))))

/-- Bitwise reference CRC of a byte string. -/
def oggCrc32Bitwise (data : List Nat) : Nat :=
  data.foldl crcByteBitwise 0

/-- A fixed reference page: the page the builder emits for an `OpusHead`
header at 16 kHz mono (BOS flag, page 0, granule 0). -/
def refPage : List Nat := buildOggPage 0x58495A48 0 0 2 [opusHeadBytes 16000 1]

/-- A minimal fixed reference page, written out byte for byte: `"OggS"`,
version 0, BOS flag, granule 0, serial `"XIZH"`, sequence 0, CRC field
zeroed, zero segments. -/
def minRefPage : List Nat :=
  [79, 103, 103, 83, 0, 2, 0, 0, 0, 0, 0, 0, 0, 0, 72, 90, 73, 88,
    0, 0, 0, 0, 0, 0, 0, 0, 0]

set_option maxRecDepth 100000 in
/-- C3: for every OGG page the builder emits, the 4-byte CRC field at
byte offset 22 equals the OGG-specific CRC-32 of the whole page computed
with the CRC field zeroed (polynomial `0x04C11DB7`, initial value 0, no
reflection, byte-at-a-time via the 256-entry table seeded by shifting in
the polynomial); the builder's reference page carries CRC `0x1E16B212`
in its field, and on a fixed reference page the table-driven CRC matches
the standard bit-at-a-time shift-register OGG CRC bit-for-bit
(`0x6F7AD08F`), the two CRC definitions also agreeing on the standard
check input `"123456789"`, where the documented no-final-xor
CRC-32/POSIX value is `0x89A1897F`. -/
theorem claim3_page_crc :
    (∀ (serial pageSeq granule flags : Nat) (segmentsData : List (List Nat)),
      ((buildOggPage serial pageSeq granule flags segmentsData).drop 22).take 4 =
        leBytes 4 (oggCrc32
          ((buildOggPage serial pageSeq granule flags segmentsData).take 22 ++
            ([0, 0, 0, 0] ++
              (buildOggPage serial pageSeq granule flags segmentsData).drop 26)))) ∧
    oggCrc32 (refPage.take 22 ++ ([0, 0, 0, 0] ++ refPage.drop 26)) =
      0x1E16B212 ∧
    (refPage.drop 22).take 4 = leBytes 4 0x1E16B212 ∧
    oggCrc32 minRefPage = 0x6F7AD08F ∧
    oggCrc32Bitwise minRefPage = 0x6F7AD08F ∧
    oggCrc32 [49, 50, 51, 52, 53, 54, 55, 56, 57] = 0x89A1897F ∧
    oggCrc32Bitwise [49, 50, 51, 52, 53, 54, 55, 56, 57] = 0x89A1897F := by
  refine ⟨?_, by decide, by decide, by decide, by decide, by decide, by decide⟩
  intro serial pageSeq granule flags segmentsData
  rw [buildOggPage_eq]
  have hF : (pageFront serial pageSeq granule flags).length = 22 :=
    pageFront_length ..
  have hc4 : (leBytes 4 (oggCrc32 (pageFront serial pageSeq granule flags ++
      leBytes 4 0 ++ pageTailSegs segmentsData))).length = 4 :=
    leBytes_length ..
  have hd22 : (pageFront serial pageSeq granule flags ++
      leBytes 4 (oggCrc32 (pageFront serial pageSeq granule flags ++
        leBytes 4 0 ++ pageTailSegs segmentsData)) ++
      pageTailSegs segmentsData).drop 22 =
      leBytes 4 (oggCrc32 (pageFront serial pageSeq granule flags ++
        leBytes 4 0 ++ pageTailSegs segmentsData)) ++
        pageTailSegs segmentsData := by
    rw [List.append_assoc]
    exact List.drop_left' hF
  have ht22 : (pageFront serial pageSeq granule flags ++
      leBytes 4 (oggCrc32 (pageFront serial pageSeq granule flags ++
        leBytes 4 0 ++ pageTailSegs segmentsData)) ++
      pageTailSegs segmentsData).take 22 =
      pageFront serial pageSeq granule flags := by
    rw [List.append_assoc]
    exact List.take_left' hF
  have hd26 : (pageFront serial pageSeq granule flags ++
      leBytes 4 (oggCrc32 (pageFront serial pageSeq granule flags ++
        leBytes 4 0 ++ pageTailSegs segmentsData)) ++
      pageTailSegs segmentsData).drop 26 = pageTailSegs segmentsData :=
    List.drop_left' (by simp [hF, leBytes_length])
  rw [hd22, List.take_left' hc4, ht22, hd26]
  congr 2

/-! ## C2: a partial packet at end of stream

`_parse_ogg_opus_packets` ends with

```python
    # Flush any remaining partial packet
    if pending_parts:
        packet = b"".join(pending_parts)
        if packet:
            yield packet
```

so a nonempty partial packet left pending at end of stream is *emitted*,
not discarded. -/

/-- A hand-made OGG page whose single segment is 255 bytes long, so the
packet it starts is never terminated (no <255-byte segment follows).
Header fields other than the segment count are zero; the parser ignores
them. -/
def unterminatedPage (d : List Nat) : List Nat :=
  oggSBytes ++ ((List.replicate 22 0 ++ [1]) ++ ([255] ++ (d ++ [])))

theorem parsePage_unterminatedPage (d : List Nat) (hd : d.length = 255) :
    parsePage (unterminatedPage d) = some ([255], d, []) := by
  have h := parsePage_generic (List.replicate 22 0) [255] d []
    (by simp) (by simp) (by simp [hd])
  simpa [unterminatedPage] using h

/-- Reaching the unterminated page past the header pages buffers its 255
bytes and then flushes them at end of stream as a final packet. -/
theorem parseLoopF_unterminatedPage (fuel idx : Nat) (d : List Nat)
    (hidx : 2 ≤ idx) (hd : d.length = 255) :
    parseLoopF (fuel + 1) idx [] (unterminatedPage d) = [d] := by
  have hne : d ≠ [] := by intro h; rw [h] at hd; simp at hd
  have htake : d.take 255 = d := by rw [← hd, List.take_length]
  simp only [parseLoopF, parsePage_unterminatedPage d hd]
  rw [if_neg (by omega)]
  rw [segmentsToPackets, if_neg (by omega), segmentsToPackets]
  simp only [List.nil_append, htake]
  rw [parseLoopF_nil_stream, flushPending, if_neg hne]

set_option maxRecDepth 400000 in
/-- Counterexample to C2 as stated: a stream whose last page's only
segment is 255 bytes long leaves a partial packet pending at end of
stream, and the parser *emits* it (the claim says it is discarded). -/
theorem claim2_counterexample :
    parseOggOpusPackets
        (buildOggOpusStream [] 16000 1 ++
          unterminatedPage (List.replicate 255 7)) =
      [List.replicate 255 7] := by decide

/-- C2 (amended): when the OGG parser reaches end of stream while a
packet is only partially buffered (its most recent segment was 255 bytes,
so no terminating segment was seen), that partial packet is *flushed and
emitted* as a final parsed packet whenever it is nonempty; only an empty
partial buffer is dropped. -/
theorem claim2_partial_packet_flushed (packets : List (List Nat))
    (sampleRate channels : Nat) (d : List Nat)
    (hne : ∀ p ∈ packets, p ≠ [])
    (hlen : ∀ p ∈ packets, p.length ≤ 65024)
    (hd : d.length = 255) :
    parseOggOpusPackets
        (buildOggOpusStream packets sampleRate channels ++
          unterminatedPage d) =
      packets ++ [d] := by
  unfold parseOggOpusPackets
  have hassoc : buildOggOpusStream packets sampleRate channels ++
      unterminatedPage d =
      buildOggPage xizhSerial 0 0 0x02 [opusHeadBytes sampleRate channels] ++
        (buildOggPage xizhSerial 1 0 0 [opusTagsBytes] ++
          (buildAudioPages packets.length packets 0 0 ++
            unterminatedPage d)) := by
    simp [buildOggOpusStream, List.append_assoc]
  rw [hassoc]
  have hhead : (opusHeadBytes sampleRate channels).length ≤ 65024 := by
    rw [opusHeadBytes_length]; omega
  have htags : opusTagsBytes.length ≤ 65024 := by
    rw [opusTagsBytes_length]; omega
  have hlen0 := buildOggPage_single_length xizhSerial 0 0 0x02
    (opusHeadBytes sampleRate channels)
  have hlen1 := buildOggPage_single_length xizhSerial 1 0 0 opusTagsBytes
  have haudio := buildAudioPages_length_ge packets.length packets 0 0
  have hunterm : (unterminatedPage d).length = 28 + d.length := by
    simp only [unterminatedPage, oggSBytes, List.length_append,
      List.length_replicate, List.length_cons, List.length_nil]
    omega
  set N := (buildOggPage xizhSerial 0 0 0x02 [opusHeadBytes sampleRate channels] ++
    (buildOggPage xizhSerial 1 0 0 [opusTagsBytes] ++
      (buildAudioPages packets.length packets 0 0 ++
        unterminatedPage d))).length with hN
  have hNval : packets.length + 3 ≤ N := by
    rw [hN]
    simp only [List.length_append]
    omega
  rw [parseLoopF_page N 0 [] _ _ _ _ _ _ hhead, if_pos (by omega)]
  obtain ⟨m, hm⟩ : ∃ m, N = m + 1 := ⟨N - 1, by omega⟩
  rw [hm]
  rw [parseLoopF_page m 1 [] _ _ _ _ _ _ htags, if_pos (by omega)]
  obtain ⟨f, rfl⟩ : ∃ f, m = f + packets.length :=
    ⟨m - packets.length, by omega⟩
  rw [parseLoopF_buildAudioPages packets.length packets
    (fun p hp => ⟨hne p hp, hlen p hp⟩) f 2 0 0 (unterminatedPage d)
    (by omega)]
  obtain ⟨g, rfl⟩ : ∃ g, f = g + 1 := ⟨f - 1, by omega⟩
  rw [parseLoopF_unterminatedPage g (2 + packets.length) d (by omega) hd]

set_option maxRecDepth 400000 in
/-- Witness for the amended C2 at concrete inputs. -/
theorem claim2_partial_packet_flushed_witness :
    (∀ p ∈ [[1, 2, 3]], p ≠ []) ∧
    (∀ p ∈ [[1, 2, 3]], p.length ≤ 65024) ∧
    (List.replicate 255 7).length = 255 ∧
    parseOggOpusPackets
        (buildOggOpusStream [[1, 2, 3]] 16000 1 ++
          unterminatedPage (List.replicate 255 7)) =
      [[1, 2, 3]] ++ [List.replicate 255 7] :=
  ⟨by decide, by decide, by decide,
    claim2_partial_packet_flushed [[1, 2, 3]] 16000 1 (List.replicate 255 7)
      (by decide) (by decide) (by decide)⟩

set_option maxRecDepth 40000 in
/-- Witness for C1 at a concrete packet list. -/
theorem claim1_ogg_roundtrip_witness :
    (∀ p ∈ [[1, 2, 3], List.replicate 300 9, [4]], p ≠ []) ∧
    (∀ p ∈ [[1, 2, 3], List.replicate 300 9, [4]], p.length ≤ 65024) ∧
    parseOggOpusPackets
        (buildOggOpusStream [[1, 2, 3], List.replicate 300 9, [4]] 16000 1) =
      [[1, 2, 3], List.replicate 300 9, [4]] :=
  ⟨by decide, by decide,
    claim1_ogg_roundtrip [[1, 2, 3], List.replicate 300 9, [4]] 16000 1
      (by decide) (by decide)⟩

/-! ## C4: totality of `unpack_audio_frame` -/

/-- C4: `unpack_audio_frame` is total (it returns an `Option`, never
raising): on input shorter than the 4-byte header, or whose declared
frame type is not the audio type, or whose declared payload size exceeds
the bytes available after the header, it returns `none`; otherwise it
returns exactly the declared payload slice `data[4 : 4 + size]`. -/
theorem claim4_unpack_audio_frame_spec (data : List Nat) :
    (data.length < 4 → unpack_audio_frame data = none) ∧
    (4 ≤ data.length → data.getD 0 0 ≠ BINARY_FRAME_TYPE_AUDIO →
      unpack_audio_frame data = none) ∧
    (4 ≤ data.length → data.getD 0 0 = BINARY_FRAME_TYPE_AUDIO →
      data.length < 4 + (data.getD 2 0 * 256 + data.getD 3 0) →
      unpack_audio_frame data = none) ∧
    (4 ≤ data.length → data.getD 0 0 = BINARY_FRAME_TYPE_AUDIO →
      4 + (data.getD 2 0 * 256 + data.getD 3 0) ≤ data.length →
      unpack_audio_frame data =
        some ((data.drop 4).take (data.getD 2 0 * 256 + data.getD 3 0))) := by
  simp only [unpack_audio_frame, frameHeaderSize]
  refine ⟨fun h => by rw [if_pos h], fun h4 ht => ?_, fun h4 ht hlt => ?_,
    fun h4 ht hle => ?_⟩
  · rw [if_neg (by omega), if_pos ht]
  · rw [if_neg (by omega), if_neg (by simp only [ne_eq, not_not]; exact ht),
      if_pos (by simp only [List.length_take, List.length_drop]; omega)]
  · rw [if_neg (by omega), if_neg (by simp only [ne_eq, not_not]; exact ht),
      if_neg (by simp only [List.length_take, List.length_drop, ne_eq,
        not_not]; omega)]

/-- Witness for C4: a well-formed frame with a trailing byte unpacks to
exactly its declared 2-byte payload. -/
theorem claim4_unpack_audio_frame_spec_witness :
    4 ≤ ([0, 0, 0, 2, 7, 8, 9] : List Nat).length ∧
    ([0, 0, 0, 2, 7, 8, 9] : List Nat).getD 0 0 = BINARY_FRAME_TYPE_AUDIO ∧
    unpack_audio_frame [0, 0, 0, 2, 7, 8, 9] = some [7, 8] :=
  ⟨by decide, by decide,
    (claim4_unpack_audio_frame_spec [0, 0, 0, 2, 7, 8, 9]).2.2.2
      (by decide) (by decide) (by decide)⟩

/-! ## C5: reconnect backoff (`base_ws.py`, `const.py`) -/

def RECONNECT_MIN_DELAY : Nat := 5
def RECONNECT_MAX_DELAY : Nat := 60
def RECONNECT_BACKOFF_FACTOR : Nat := 2

/-- The piece of `BaseWebSocketClient` state the backoff claim is about:
`self._reconnect_delay` (`base_ws.py` line 41). -/
structure ReconnectState where
  reconnectDelay : Nat
deriving DecidableEq

/-- `__init__`: `self._reconnect_delay = RECONNECT_MIN_DELAY`. -/
def initReconnectState : ReconnectState := ⟨RECONNECT_MIN_DELAY⟩

/-- `_connect_once` success path (line 108): the delay resets to the
minimum. -/
def connectSuccess (_s : ReconnectState) : ReconnectState :=
  ⟨RECONNECT_MIN_DELAY⟩

/-- `_reconnect_loop` failure path (lines 172–175):
`self._reconnect_delay = min(self._reconnect_delay *
RECONNECT_BACKOFF_FACTOR, RECONNECT_MAX_DELAY)`. -/
def reconnectFail (s : ReconnectState) : ReconnectState :=
  ⟨min (s.reconnectDelay * RECONNECT_BACKOFF_FACTOR) RECONNECT_MAX_DELAY⟩

/-- C5: the reconnection delay starts at the minimum delay (5 s); every
failed attempt multiplies it by the backoff factor 2, capped at the
maximum delay (60 s); every successful connect resets it to the minimum;
hence after `n` consecutive failures the delay is `min (5 * 2 ^ n) 60`. -/
theorem claim5_reconnect_backoff :
    initReconnectState.reconnectDelay = RECONNECT_MIN_DELAY ∧
    (∀ s, (connectSuccess s).reconnectDelay = RECONNECT_MIN_DELAY) ∧
    (∀ s, (reconnectFail s).reconnectDelay =
      min (s.reconnectDelay * RECONNECT_BACKOFF_FACTOR) RECONNECT_MAX_DELAY) ∧
    (∀ s n, (reconnectFail^[n] (connectSuccess s)).reconnectDelay =
      min (5 * 2 ^ n) 60) := by
  refine ⟨rfl, fun s => rfl, fun s => rfl, fun s n => ?_⟩
  induction n with
  | zero => rfl
  | succ n ih =>
    rw [Function.iterate_succ_apply']
    simp only [reconnectFail, RECONNECT_BACKOFF_FACTOR, RECONNECT_MAX_DELAY, ih]
    have hpow : 5 * 2 ^ (n + 1) = 5 * 2 ^ n * 2 := by ring
    rw [hpow]
    generalize 5 * 2 ^ n = k
    rcases Nat.le_total k 60 with h | h
    · rw [Nat.min_eq_left h]
    · rw [Nat.min_eq_right h]
      omega

/-! ## C9: voice-session registration (`client.py` lines 97–112) -/

/-- The state of an `asyncio.Future`: pending until resolved with a
result, rejected with an exception, or cancelled.  `done()` is true in
the three settled states. -/
inductive FutureState where
  | pending
  | resolved (value : String)
  | rejected
  | cancelled
deriving DecidableEq

/-- `future.done()`. -/
def FutureState.done : FutureState → Bool
  | .pending => false
  | _ => true

/-- `future.cancel()`: a pending future becomes cancelled; a settled
future is unchanged (asyncio returns `False` and does nothing). -/
def FutureState.cancel : FutureState → FutureState
  | .pending => .cancelled
  | s => s

/-- The fields of `VoicePipelineSession` that `register_voice_session`
touches. -/
structure VoiceSession where
  sessionId : String
  ttsFuture : FutureState
deriving DecidableEq

/-- The client slot `self._active_voice_session`. -/
structure ClientSessionState where
  activeVoiceSession : Option VoiceSession
deriving DecidableEq

/-- `register_voice_session(session)`: if a session is already active and
its `tts_future` is not done, that future is cancelled; the new session
becomes the active one.  The second component of the result is the old
session as a caller still holding it now observes it (the Python code
mutates the object in place). -/
def register_voice_session (st : ClientSessionState) (session : VoiceSession) :
    ClientSessionState × Option VoiceSession :=
  match st.activeVoiceSession with
  | none => (⟨some session⟩, none)
  | some old =>
    let old2 := if old.ttsFuture.done then old
      else { old with ttsFuture := old.ttsFuture.cancel }
    (⟨some session⟩, some old2)

/-- C9: registering a new voice session while a different session is
active whose result waiter is still pending cancels the old waiter — the
old session's caller observes the cancelled state, not a rejection and
not a result — and the new session becomes the active one. -/
theorem claim9_register_cancels_old (st : ClientSessionState)
    (old session : VoiceSession)
    (hactive : st.activeVoiceSession = some old)
    (_hdiff : old.sessionId ≠ session.sessionId)
    (hpending : old.ttsFuture = .pending) :
    (register_voice_session st session).1.activeVoiceSession = some session ∧
    (register_voice_session st session).2 =
      some { old with ttsFuture := .cancelled } := by
  simp [register_voice_session, hactive, hpending, FutureState.done,
    FutureState.cancel]

/-- Witness for C9. -/
theorem claim9_register_cancels_old_witness :
    (⟨some ⟨"s1", .pending⟩⟩ : ClientSessionState).activeVoiceSession =
        some ⟨"s1", .pending⟩ ∧
    ("s1" : String) ≠ "s2" ∧
    (register_voice_session ⟨some ⟨"s1", .pending⟩⟩
        ⟨"s2", .pending⟩).1.activeVoiceSession = some ⟨"s2", .pending⟩ ∧
    (register_voice_session ⟨some ⟨"s1", .pending⟩⟩ ⟨"s2", .pending⟩).2 =
      some ⟨"s1", .cancelled⟩ :=
  ⟨rfl, by decide,
    (claim9_register_cancels_old ⟨some ⟨"s1", .pending⟩⟩ ⟨"s1", .pending⟩
      ⟨"s2", .pending⟩ rfl (by decide) rfl).1,
    (claim9_register_cancels_old ⟨some ⟨"s1", .pending⟩⟩ ⟨"s1", .pending⟩
      ⟨"s2", .pending⟩ rfl (by decide) rfl).2⟩

/-! ## Python dictionaries as insertion-ordered association lists

`dictGet d[k]`, `dictSet d[k] = v` (replace in place or append) and
`dictErase` (`d.pop(k, None)` / `del d[k]`) over `String`-keyed
association lists; Python dict keys are unique, which these operations
preserve. -/

section Dict

variable {α : Type}

/-- `d.get(k)`. -/
def dictGet (k : String) : List (String × α) → Option α
  | [] => none
  | (k', v) :: rest => if k' = k then some v else dictGet k rest

/-- `d[k] = v`: replace the entry in place if the key is present,
otherwise append. -/
def dictSet (k : String) (v : α) : List (String × α) → List (String × α)
  | [] => [(k, v)]
  | (k', v') :: rest =>
    if k' = k then (k, v) :: rest else (k', v') :: dictSet k v rest

/-- `d.pop(k, None)` (the state effect): remove the entry if present. -/
def dictErase (k : String) : List (String × α) → List (String × α)
  | [] => []
  | (k', v') :: rest => if k' = k then rest else (k', v') :: dictErase k rest

theorem dictGet_dictSet_self (k : String) (v : α) (d : List (String × α)) :
    dictGet k (dictSet k v d) = some v := by
  induction d with
  | nil => simp [dictGet, dictSet]
  | cons p rest ih =>
    by_cases h : p.1 = k
    · simp [dictSet, dictGet, h]
    · simp [dictSet, dictGet, h, ih]

theorem dictGet_dictSet_ne {k k' : String} (h : k ≠ k') (v : α)
    (d : List (String × α)) : dictGet k (dictSet k' v d) = dictGet k d := by
  induction d with
  | nil => simp [dictGet, dictSet, Ne.symm h]
  | cons p rest ih =>
    by_cases h1 : p.1 = k'
    · have hpk : ¬p.1 = k := by rw [h1]; exact Ne.symm h
      simp only [dictSet, if_pos h1, dictGet, if_neg (Ne.symm h), if_neg hpk]
    · by_cases h2 : p.1 = k
      · simp only [dictSet, if_neg h1, dictGet, if_pos h2]
      · simp only [dictSet, if_neg h1, dictGet, if_neg h2, ih]

theorem dictGet_dictErase_ne {k k' : String} (h : k ≠ k')
    (d : List (String × α)) : dictGet k (dictErase k' d) = dictGet k d := by
  induction d with
  | nil => simp [dictErase]
  | cons p rest ih =>
    by_cases h1 : p.1 = k'
    · have hpk : ¬p.1 = k := by rw [h1]; exact Ne.symm h
      simp only [dictErase, if_pos h1, dictGet, if_neg hpk]
    · by_cases h2 : p.1 = k
      · simp only [dictErase, if_neg h1, dictGet, if_pos h2]
      · simp only [dictErase, if_neg h1, dictGet, if_neg h2, ih]

theorem dictErase_sublist (k : String) (d : List (String × α)) :
    (dictErase k d).Sublist d := by
  induction d with
  | nil => simp [dictErase]
  | cons p rest ih =>
    by_cases h : p.1 = k
    · simp only [dictErase, if_pos h]
      exact List.sublist_cons_self p rest
    · simp only [dictErase, if_neg h]
      exact ih.cons₂ p

theorem nodup_keys_dictErase (k : String) {d : List (String × α)}
    (h : (d.map Prod.fst).Nodup) : ((dictErase k d).map Prod.fst).Nodup :=
  ((dictErase_sublist k d).map Prod.fst).nodup h

theorem dictGet_eq_none_of_not_mem_keys {x : String} {d : List (String × α)}
    (h : x ∉ d.map Prod.fst) : dictGet x d = none := by
  induction d with
  | nil => rfl
  | cons p rest ih =>
    simp only [List.map_cons, List.mem_cons, not_or] at h
    have hne : ¬p.1 = x := fun he => h.1 he.symm
    simp only [dictGet, if_neg hne]
    exact ih h.2

theorem dictGet_dictErase_self (k : String) {d : List (String × α)}
    (h : (d.map Prod.fst).Nodup) : dictGet k (dictErase k d) = none := by
  induction d with
  | nil => rfl
  | cons p rest ih =>
    simp only [List.map_cons, List.nodup_cons] at h
    by_cases h1 : p.1 = k
    · simp only [dictErase, if_pos h1]
      exact dictGet_eq_none_of_not_mem_keys (h1 ▸ h.1)
    · simp only [dictErase, if_neg h1, dictGet, if_neg h1]
      exact ih h.2

/-- Keys of `dictSet k v d` are `k` or keys of `d`. -/
theorem mem_keys_dictSet {k x : String} {v : α} {d : List (String × α)}
    (hx : x ∈ (dictSet k v d).map Prod.fst) :
    x = k ∨ x ∈ d.map Prod.fst := by
  induction d with
  | nil => simpa [dictSet] using hx
  | cons q rest ih =>
    by_cases h : q.1 = k
    · simp only [dictSet, if_pos h, List.map_cons, List.mem_cons] at hx
      rcases hx with rfl | hx
      · exact Or.inl rfl
      · exact Or.inr (by simp [hx])
    · simp only [dictSet, if_neg h, List.map_cons, List.mem_cons] at hx
      rcases hx with rfl | hx
      · exact Or.inr (by simp)
      · rcases ih hx with h1 | h1
        · exact Or.inl h1
        · exact Or.inr (by simp [h1])

theorem nodup_keys_dictSet (k : String) (v : α) {d : List (String × α)}
    (h : (d.map Prod.fst).Nodup) : ((dictSet k v d).map Prod.fst).Nodup := by
  induction d with
  | nil => simp [dictSet]
  | cons q rest ih =>
    simp only [List.map_cons, List.nodup_cons] at h
    by_cases h1 : q.1 = k
    · simp only [dictSet, if_pos h1, List.map_cons, List.nodup_cons]
      exact ⟨by rw [← h1]; exact h.1, h.2⟩
    · simp only [dictSet, if_neg h1, List.map_cons, List.nodup_cons]
      refine ⟨fun hmem => ?_, ih h.2⟩
      rcases mem_keys_dictSet hmem with h2 | h2
      · exact h1 h2
      · exact h.1 h2

/-- With unique keys, membership determines lookup. -/
theorem dictGet_of_mem_nodup {d : List (String × α)}
    (h : (d.map Prod.fst).Nodup) {p : String × α} (hp : p ∈ d) :
    dictGet p.1 d = some p.2 := by
  induction d with
  | nil => simp at hp
  | cons q rest ih =>
    simp only [List.map_cons, List.nodup_cons] at h
    rcases List.mem_cons.mp hp with rfl | hp
    · simp [dictGet]
    · have hq : q.1 ≠ p.1 := by
        intro he
        exact h.1 (he ▸ List.mem_map_of_mem Prod.fst hp)
      simp only [dictGet, if_neg hq]
      exact ih h.2 hp

end Dict

/-! ## `PipelineCacheManager` (`models.py` lines 93–296)

Time is modelled as a `Nat` argument passed to each operation (the code
reads `time.monotonic()`); the async lock serialises the operations, so
each is a plain state transformer. -/

/-- `_CLEANUP_INTERVAL` (line 23). -/
def CLEANUP_INTERVAL : Nat := 10

/-- `PIPELINE_CACHE_TTL` (`const.py` line 57). -/
def PIPELINE_CACHE_TTL : Nat := 30

/-- `PipelineCache` (lines 93–100). -/
structure PipelineCache where
  stt_text : String
  response_text : String
  audio_chunks : List (List Nat)
  created_at : Nat
deriving DecidableEq

/-- The fields of `PipelineResultCollector` (lines 120–154) the cache
manager reads and writes; `ready` is the `asyncio.Event`'s set flag. -/
structure PipelineResultCollector where
  stt_text : String
  ready : Bool
  response_text : Option String
  audio_chunks : List (List Nat)
  created_at : Nat
deriving DecidableEq

/-- `PipelineResultCollector.__init__(stt_text)` at time `now`. -/
def newCollector (stt_text : String) (now : Nat) : PipelineResultCollector :=
  ⟨stt_text, false, none, [], now⟩

/-- `collector.complete(response_text, audio_chunks)` (lines 137–141). -/
def PipelineResultCollector.complete (c : PipelineResultCollector)
    (response_text : String) (audio_chunks : List (List Nat)) :
    PipelineResultCollector :=
  { c with response_text := some response_text,
           audio_chunks := audio_chunks, ready := true }

/-- `collector.fail()` (lines 143–145). -/
def PipelineResultCollector.fail (c : PipelineResultCollector) :
    PipelineResultCollector :=
  { c with ready := true }

/-- The mutable state of `PipelineCacheManager` (lines 168–175). -/
structure CacheMgr where
  cache : List (String × PipelineCache)
  response_index : List (String × String)
  collectors : List (String × List PipelineResultCollector)
  ttl : Nat
  last_cleanup : Nat
deriving DecidableEq

/-- `PipelineCacheManager.__init__(ttl)`. -/
def initCacheMgr (ttl : Nat) : CacheMgr := ⟨[], [], [], ttl, 0⟩

/-- The `for k in expired:` loop of `_cleanup_if_needed` (lines 283–285):
pop each expired cache entry together with its reverse-index entry. -/
def popExpired : List String →
    List (String × PipelineCache) × List (String × String) →
    List (String × PipelineCache) × List (String × String)
  | [], st => st
  | k :: ks, st =>
    match dictGet k st.1 with
    | some entry =>
      popExpired ks (dictErase k st.1, dictErase entry.response_text st.2)
    | none => popExpired ks st

/-- `_cleanup_if_needed` (lines 272–296).  If at least
`_CLEANUP_INTERVAL` has passed since the last sweep: pop every cache
entry older than the TTL together with its reverse-index entry; drop the
expired head elements of every collector queue (each is `fail()`ed as it
is dropped and leaves the state), removing queues that become empty. -/
def cleanupIfNeeded (now : Nat) (s : CacheMgr) : CacheMgr :=
  if now - s.last_cleanup < CLEANUP_INTERVAL then s
  else
    let expired :=
      (s.cache.filter fun p => s.ttl < now - p.2.created_at).map Prod.fst
    let swept := popExpired expired (s.cache, s.response_index)
    let collectors2 := (s.collectors.map fun p =>
        (p.1, p.2.dropWhile fun c => s.ttl < now - c.created_at)).filter
      fun p => ¬p.2.isEmpty
    ⟨swept.1, swept.2, collectors2, s.ttl, now⟩

/-- `create_collector(stt_text)` at time `now` (lines 177–185): cleanup,
then append a fresh collector to the key's queue (creating the queue if
missing).  Returns the new state and the collector. -/
def create_collector (now : Nat) (stt_text : String) (s : CacheMgr) :
    CacheMgr × PipelineResultCollector :=
  let s1 := cleanupIfNeeded now s
  let collector := newCollector stt_text now
  let q := (dictGet stt_text s1.collectors).getD []
  ({ s1 with collectors := dictSet stt_text (q ++ [collector]) s1.collectors },
    collector)

/-- `get_collector(stt_text)` (lines 187–193): peek the oldest collector
of the key's queue without removing it. -/
def get_collector (stt_text : String) (s : CacheMgr) :
    Option PipelineResultCollector :=
  match dictGet stt_text s.collectors with
  | some (c :: _) => some c
  | _ => none

/-- `_store_locked` (lines 257–270). -/
def store_locked (now : Nat) (stt_text response_text : String)
    (audio_chunks : List (List Nat)) (s : CacheMgr) : CacheMgr :=
  { s with
      cache := dictSet stt_text ⟨stt_text, response_text, audio_chunks, now⟩
        s.cache,
      response_index := dictSet response_text stt_text s.response_index }

/-- `complete_collector` (lines 195–209): pop and complete the oldest
collector of the key's queue if one exists (deleting the queue when it
empties), then store the result.  Also returns the resolved collector
(the Python code mutates the popped object, which its creator still
holds). -/
def complete_collector (now : Nat) (stt_text response_text : String)
    (audio_chunks : List (List Nat)) (s : CacheMgr) :
    CacheMgr × Option PipelineResultCollector :=
  let popped : CacheMgr × Option PipelineResultCollector :=
    match dictGet stt_text s.collectors with
    | some (c :: rest) =>
      (if rest.isEmpty then
        { s with collectors := dictErase stt_text s.collectors }
       else { s with collectors := dictSet stt_text rest s.collectors },
        some (c.complete response_text audio_chunks))
    | _ => (s, none)
  (store_locked now stt_text response_text audio_chunks popped.1, popped.2)

/-- `fail_collector` (lines 211–223): pop and fail the oldest collector
of the key's queue if one exists, then purge every reverse-index entry
pointing at `stt_text`. -/
def fail_collector (stt_text : String) (s : CacheMgr) :
    CacheMgr × Option PipelineResultCollector :=
  let popped : CacheMgr × Option PipelineResultCollector :=
    match dictGet stt_text s.collectors with
    | some (c :: rest) =>
      (if rest.isEmpty then
        { s with collectors := dictErase stt_text s.collectors }
       else { s with collectors := dictSet stt_text rest s.collectors },
        some c.fail)
    | _ => (s, none)
  ({ popped.1 with
      response_index := popped.1.response_index.filter fun p => p.2 ≠ stt_text },
    popped.2)

/-- `store` (lines 225–234). -/
def store (now : Nat) (stt_text response_text : String)
    (audio_chunks : List (List Nat)) (s : CacheMgr) : CacheMgr :=
  store_locked now stt_text response_text audio_chunks (cleanupIfNeeded now s)

/-- `get_by_input` (lines 236–243): cleanup, pop the entry, and pop its
reverse-index key. -/
def get_by_input (now : Nat) (stt_text : String) (s : CacheMgr) :
    CacheMgr × Option PipelineCache :=
  let s1 := cleanupIfNeeded now s
  match dictGet stt_text s1.cache with
  | some entry =>
    ({ s1 with cache := dictErase stt_text s1.cache,
               response_index :=
                 dictErase entry.response_text s1.response_index },
      some entry)
  | none => (s1, none)

/-- `get_audio_by_response` (lines 245–255): cleanup, pop the
reverse-index entry, then pop the forward entry it points at (the
reverse entry is consumed even when the forward entry is missing). -/
def get_audio_by_response (now : Nat) (response_text : String) (s : CacheMgr) :
    CacheMgr × Option (List (List Nat)) :=
  let s1 := cleanupIfNeeded now s
  match dictGet response_text s1.response_index with
  | none => (s1, none)
  | some stt_text =>
    let s2 := { s1 with
      response_index := dictErase response_text s1.response_index }
    match dictGet stt_text s2.cache with
    | none => (s2, none)
    | some entry =>
      ({ s2 with cache := dictErase stt_text s2.cache },
        some entry.audio_chunks)

/-! ## C6: cache entries are single-use -/

/-- After `store` on a fresh manager the state is the stored entry (with
some `last_cleanup`, depending on whether the sweep ran), and no sweep is
due at the same instant. -/
theorem store_init (now : Nat) (sttText responseText : String)
    (chunks : List (List Nat)) :
    ∃ last0,
      store now sttText responseText chunks (initCacheMgr PIPELINE_CACHE_TTL) =
        ⟨[(sttText, ⟨sttText, responseText, chunks, now⟩)],
          [(responseText, sttText)], [], PIPELINE_CACHE_TTL, last0⟩ ∧
      now - last0 < CLEANUP_INTERVAL := by
  by_cases h : now < CLEANUP_INTERVAL
  · refine ⟨0, ?_, by simpa using h⟩
    simp [store, cleanupIfNeeded, store_locked, initCacheMgr, dictSet, h]
  · refine ⟨now, ?_, by simp [CLEANUP_INTERVAL]⟩
    simp [store, cleanupIfNeeded, store_locked, initCacheMgr, dictSet,
      popExpired, h]

/-- C6: cache entries are single-use.  After `store(sttText,
responseText, chunks)` on a fresh manager, the first
`get_by_input(sttText)` returns the entry and removes it from both the
forward map and the reverse index, so a second `get_by_input` — and a
reverse lookup — return nothing; symmetrically,
`get_audio_by_response(responseText)` called first returns the stored
chunks and invalidates the forward entry, so a subsequent
`get_by_input(sttText)` returns nothing. -/
theorem claim6_cache_single_use (now : Nat) (sttText responseText : String)
    (chunks : List (List Nat)) :
    (get_by_input now sttText
        (store now sttText responseText chunks
          (initCacheMgr PIPELINE_CACHE_TTL))).2 =
      some ⟨sttText, responseText, chunks, now⟩ ∧
    (get_by_input now sttText
        (get_by_input now sttText
          (store now sttText responseText chunks
            (initCacheMgr PIPELINE_CACHE_TTL))).1).2 = none ∧
    (get_audio_by_response now responseText
        (get_by_input now sttText
          (store now sttText responseText chunks
            (initCacheMgr PIPELINE_CACHE_TTL))).1).2 = none ∧
    (get_audio_by_response now responseText
        (store now sttText responseText chunks
          (initCacheMgr PIPELINE_CACHE_TTL))).2 = some chunks ∧
    (get_by_input now sttText
        (get_audio_by_response now responseText
          (store now sttText responseText chunks
            (initCacheMgr PIPELINE_CACHE_TTL))).1).2 = none := by
  obtain ⟨last0, hs, hskip⟩ := store_init now sttText responseText chunks
  rw [hs]
  have hclean : ∀ c i col,
      cleanupIfNeeded now
          (⟨c, i, col, PIPELINE_CACHE_TTL, last0⟩ : CacheMgr) =
        ⟨c, i, col, PIPELINE_CACHE_TTL, last0⟩ :=
    fun c i col => if_pos hskip
  simp [get_by_input, get_audio_by_response, hclean, dictGet, dictErase]

/-! ## C8: collectors are served FIFO -/

/-- Two `create_collector` calls for the same key on a fresh manager
queue the two collectors oldest first (provided the second call's sweep
does not find the first collector expired). -/
theorem create_create_init (now1 now2 : Nat) (key : String)
    (htt : now2 - now1 ≤ PIPELINE_CACHE_TTL) :
    (create_collector now2 key
        (create_collector now1 key
          (initCacheMgr PIPELINE_CACHE_TTL)).1).1.collectors =
      [(key, [newCollector key now1, newCollector key now2])] := by
  obtain ⟨last1, hr1⟩ : ∃ last1,
      (create_collector now1 key (initCacheMgr PIPELINE_CACHE_TTL)).1 =
        ⟨[], [], [(key, [newCollector key now1])], PIPELINE_CACHE_TTL,
          last1⟩ := by
    by_cases h : now1 < CLEANUP_INTERVAL
    · exact ⟨0, by simp [create_collector, cleanupIfNeeded, initCacheMgr,
        dictGet, dictSet, h]⟩
    · exact ⟨now1, by simp [create_collector, cleanupIfNeeded, initCacheMgr,
        dictGet, dictSet, popExpired, h]⟩
  rw [hr1]
  have hkeep : ¬PIPELINE_CACHE_TTL < now2 - now1 := by omega
  by_cases h2 : now2 - last1 < CLEANUP_INTERVAL
  · simp [create_collector, cleanupIfNeeded, h2, dictGet, dictSet,
      newCollector]
  · simp [create_collector, cleanupIfNeeded, h2, dictGet, dictSet,
      popExpired, newCollector, List.dropWhile, hkeep]

/-- C8: collectors for the same recognized-text key are served strictly
FIFO.  With two collectors created in order `c1` then `c2` for the same
key, one `complete_collector` call resolves `c1` (the returned resolved
collector is `c1` completed) and leaves `c2` unresolved and queued as the
new oldest collector; `fail_collector` behaves the same with `c1`
failed. -/
theorem claim8_collectors_fifo (now1 now2 now3 : Nat) (key resp : String)
    (chunks : List (List Nat)) (htt : now2 - now1 ≤ PIPELINE_CACHE_TTL) :
    (complete_collector now3 key resp chunks
        (create_collector now2 key
          (create_collector now1 key
            (initCacheMgr PIPELINE_CACHE_TTL)).1).1).2 =
      some ((newCollector key now1).complete resp chunks) ∧
    get_collector key
        (complete_collector now3 key resp chunks
          (create_collector now2 key
            (create_collector now1 key
              (initCacheMgr PIPELINE_CACHE_TTL)).1).1).1 =
      some (newCollector key now2) ∧
    (newCollector key now2).ready = false ∧
    (fail_collector key
        (create_collector now2 key
          (create_collector now1 key
            (initCacheMgr PIPELINE_CACHE_TTL)).1).1).2 =
      some (newCollector key now1).fail ∧
    get_collector key
        (fail_collector key
          (create_collector now2 key
            (create_collector now1 key
              (initCacheMgr PIPELINE_CACHE_TTL)).1).1).1 =
      some (newCollector key now2) := by
  have hcol := create_create_init now1 now2 key htt
  refine ⟨?_, ?_, rfl, ?_, ?_⟩ <;>
    simp [complete_collector, fail_collector, get_collector, store_locked,
      hcol, dictGet, dictSet, dictErase]

/-- Witness for C8. -/
theorem claim8_collectors_fifo_witness :
    (5 : Nat) - 3 ≤ PIPELINE_CACHE_TTL ∧
    (complete_collector 7 "k" "resp" [[9]]
        (create_collector 5 "k"
          (create_collector 3 "k"
            (initCacheMgr PIPELINE_CACHE_TTL)).1).1).2 =
      some ((newCollector "k" 3).complete "resp" [[9]]) :=
  ⟨by decide,
    (claim8_collectors_fifo 3 5 7 "k" "resp" [[9]] (by decide)).1⟩

/-! ## C10: `complete_collector` stores even with no collector queued -/

/-- Popping expired keys leaves lookups of other keys unchanged. -/
theorem popExpired_get_of_not_mem (k : String) :
    ∀ (ks : List String)
      (st : List (String × PipelineCache) × List (String × String)),
      k ∉ ks → dictGet k (popExpired ks st).1 = dictGet k st.1 := by
  intro ks
  induction ks with
  | nil => intro st _; rfl
  | cons k' ks ih =>
    intro st hk
    simp only [List.mem_cons, not_or] at hk
    rcases hdg : dictGet k' st.1 with _ | entry
    · simp only [popExpired, hdg]
      exact ih _ hk.2
    · simp only [popExpired, hdg]
      rw [ih _ hk.2, dictGet_dictErase_ne hk.1]

/-- A freshly stored entry survives a sweep at the same instant. -/
theorem dictGet_cleanup_store_locked (now : Nat)
    (sttText responseText : String) (chunks : List (List Nat)) (s : CacheMgr)
    (hwf : (s.cache.map Prod.fst).Nodup) :
    dictGet sttText
        (cleanupIfNeeded now
          (store_locked now sttText responseText chunks s)).cache =
      some ⟨sttText, responseText, chunks, now⟩ := by
  set e : PipelineCache := ⟨sttText, responseText, chunks, now⟩ with he
  set s' := store_locked now sttText responseText chunks s with hs'
  have hwf' : (s'.cache.map Prod.fst).Nodup := nodup_keys_dictSet _ _ hwf
  have hself : dictGet sttText s'.cache = some e :=
    dictGet_dictSet_self sttText e s.cache
  by_cases h : now - s'.last_cleanup < CLEANUP_INTERVAL
  · rw [cleanupIfNeeded, if_pos h]
    exact hself
  · rw [cleanupIfNeeded, if_neg h]
    have hnotmem : sttText ∉
        ((s'.cache.filter fun p => s'.ttl < now - p.2.created_at).map
          Prod.fst) := by
      intro hmem
      obtain ⟨p, hp, hpk⟩ := List.mem_map.mp hmem
      have hpc := List.mem_filter.mp hp
      have hpg : dictGet p.1 s'.cache = some p.2 :=
        dictGet_of_mem_nodup hwf' hpc.1
      rw [hpk, hself] at hpg
      have hpe : p.2 = e := (Option.some.inj hpg).symm
      have hcond := hpc.2
      rw [hpe, he] at hcond
      simp at hcond
    rw [popExpired_get_of_not_mem _ _ _ hnotmem]
    exact hself

/-- C10 (implicit): `complete_collector(sttText, responseText, chunks)`
stores the result under both the forward map and the reverse index even
when no collector is queued for `sttText` — the pop-and-resolve step is
skipped (no collector is resolved) but the store still happens, so a
`get_by_input(sttText)` performed afterwards returns the result. -/
theorem claim10_complete_stores_without_collector (now : Nat)
    (sttText responseText : String) (chunks : List (List Nat)) (s : CacheMgr)
    (hq : dictGet sttText s.collectors = none)
    (hwf : (s.cache.map Prod.fst).Nodup) :
    (complete_collector now sttText responseText chunks s).2 = none ∧
    dictGet responseText
        (complete_collector now sttText responseText
          chunks s).1.response_index = some sttText ∧
    (get_by_input now sttText
        (complete_collector now sttText responseText chunks s).1).2 =
      some ⟨sttText, responseText, chunks, now⟩ := by
  have hcc : complete_collector now sttText responseText chunks s =
      (store_locked now sttText responseText chunks s, none) := by
    simp [complete_collector, hq]
  rw [hcc]
  refine ⟨rfl, dictGet_dictSet_self .., ?_⟩
  have hget := dictGet_cleanup_store_locked now sttText responseText chunks
    s hwf
  simp only [get_by_input, hget]

/-- Witness for C10. -/
theorem claim10_complete_stores_without_collector_witness :
    dictGet "x" (initCacheMgr PIPELINE_CACHE_TTL).collectors = none ∧
    (((initCacheMgr PIPELINE_CACHE_TTL).cache.map Prod.fst)).Nodup ∧
    (get_by_input 4 "x"
        (complete_collector 4 "x" "y" [[1]]
          (initCacheMgr PIPELINE_CACHE_TTL)).1).2 = some ⟨"x", "y", [[1]], 4⟩ :=
  ⟨by decide, by decide,
    (claim10_complete_stores_without_collector 4 "x" "y" [[1]]
      (initCacheMgr PIPELINE_CACHE_TTL) (by decide) (by decide)).2.2⟩

/-! ## C7: mutual consistency of the forward map and the reverse index

The claimed global invariant — every reverse-index key points to a
present forward key, and every forward entry's response-text is a
reverse-index key pointing back at it — is *not* preserved by every
operation: `fail_collector` purges reverse-index entries while leaving
the forward entry, and an overwriting `store` re-points a shared
response-text key.  What does hold is consistency of the pair each
operation inserts or removes. -/

/-- The invariant claimed of the cache: forward map and reverse index
mutually consistent. -/
def cacheConsistent (s : CacheMgr) : Prop :=
  (∀ p ∈ s.response_index, (dictGet p.2 s.cache).isSome = true) ∧
  (∀ q ∈ s.cache, dictGet q.2.response_text s.response_index = some q.1)

instance (s : CacheMgr) : Decidable (cacheConsistent s) := by
  unfold cacheConsistent
  infer_instance

/-- Counterexample to C7 as stated: from a consistent state holding the
entry stored by `store("a", "r", [])`, a single `fail_collector("a")`
call leaves the forward entry for `"a"` in place but purges its
reverse-index key `"r"`, breaking mutual consistency. -/
theorem claim7_counterexample :
    cacheConsistent
        (store 0 "a" "r" [] (initCacheMgr PIPELINE_CACHE_TTL)) ∧
    ¬cacheConsistent
        ((fail_collector "a"
          (store 0 "a" "r" [] (initCacheMgr PIPELINE_CACHE_TTL))).1) := by
  constructor <;> decide

theorem popExpired_nodup :
    ∀ (ks : List String)
      (st : List (String × PipelineCache) × List (String × String)),
      (st.1.map Prod.fst).Nodup → (st.2.map Prod.fst).Nodup →
      ((popExpired ks st).1.map Prod.fst).Nodup ∧
      ((popExpired ks st).2.map Prod.fst).Nodup := by
  intro ks
  induction ks with
  | nil => exact fun st h1 h2 => ⟨h1, h2⟩
  | cons k ks ih =>
    intro st h1 h2
    rcases hdg : dictGet k st.1 with _ | entry
    · simp only [popExpired, hdg]
      exact ih st h1 h2
    · simp only [popExpired, hdg]
      exact ih _ (nodup_keys_dictErase _ h1) (nodup_keys_dictErase _ h2)

/-- The sweep preserves uniqueness of the two maps' keys. -/
theorem cleanup_nodup (now : Nat) (s : CacheMgr)
    (h1 : (s.cache.map Prod.fst).Nodup)
    (h2 : (s.response_index.map Prod.fst).Nodup) :
    ((cleanupIfNeeded now s).cache.map Prod.fst).Nodup ∧
    ((cleanupIfNeeded now s).response_index.map Prod.fst).Nodup := by
  rw [cleanupIfNeeded]
  by_cases h : now - s.last_cleanup < CLEANUP_INTERVAL
  · rw [if_pos h]
    exact ⟨h1, h2⟩
  · rw [if_neg h]
    exact popExpired_nodup _ _ h1 h2

/-- C7 (amended): each operation keeps the *entry it touches* consistent
across the two maps — `_store_locked` (hence `store` and
`complete_collector`) leaves the new forward entry present with its
response-text as a reverse-index key pointing back to it; a successful
`get_by_input` pops the forward entry and its reverse-index key
together; a successful reverse walk of `get_audio_by_response` pops the
reverse-index key and the forward entry it pointed at together.  (Global
mutual consistency of the whole maps is not an invariant; see the
counterexample.) -/
theorem claim7_per_entry_consistency :
    (∀ (now : Nat) (sttText responseText : String)
        (chunks : List (List Nat)) (s : CacheMgr),
      dictGet sttText
          (store_locked now sttText responseText chunks s).cache =
        some ⟨sttText, responseText, chunks, now⟩ ∧
      dictGet responseText
          (store_locked now sttText responseText chunks s).response_index =
        some sttText) ∧
    (∀ (now : Nat) (sttText : String) (s : CacheMgr) (e : PipelineCache),
      (s.cache.map Prod.fst).Nodup →
      (s.response_index.map Prod.fst).Nodup →
      (get_by_input now sttText s).2 = some e →
      dictGet sttText (get_by_input now sttText s).1.cache = none ∧
      dictGet e.response_text
          (get_by_input now sttText s).1.response_index = none) ∧
    (∀ (now : Nat) (responseText : String) (s : CacheMgr) (t : String),
      (s.cache.map Prod.fst).Nodup →
      (s.response_index.map Prod.fst).Nodup →
      dictGet responseText (cleanupIfNeeded now s).response_index = some t →
      dictGet responseText
          (get_audio_by_response now responseText s).1.response_index =
        none ∧
      dictGet t (get_audio_by_response now responseText s).1.cache = none) := by
  refine ⟨fun now stt resp chunks s =>
    ⟨dictGet_dictSet_self .., dictGet_dictSet_self ..⟩, ?_, ?_⟩
  · intro now stt s e h1 h2 hres
    obtain ⟨hwf1, hwf2⟩ := cleanup_nodup now s h1 h2
    rcases hdg : dictGet stt (cleanupIfNeeded now s).cache with _ | entry
    · simp only [get_by_input, hdg] at hres
      exact absurd hres (by simp)
    · simp only [get_by_input, hdg] at hres ⊢
      obtain rfl : entry = e := Option.some.inj hres
      exact ⟨dictGet_dictErase_self _ hwf1, dictGet_dictErase_self _ hwf2⟩
  · intro now resp s t h1 h2 hidx
    obtain ⟨hwf1, hwf2⟩ := cleanup_nodup now s h1 h2
    rcases hdg : dictGet t (cleanupIfNeeded now s).cache with _ | entry
    · simp only [get_audio_by_response, hidx, hdg]
      exact ⟨dictGet_dictErase_self _ hwf2, trivial⟩
    · simp only [get_audio_by_response, hidx, hdg]
      exact ⟨dictGet_dictErase_self _ hwf2, dictGet_dictErase_self _ hwf1⟩

/-- Witness for the amended C7 (the hypotheses of its second conjunct at
a concrete store-then-lookup). -/
theorem claim7_per_entry_consistency_witness :
    (((store 0 "a" "r" [[1]]
        (initCacheMgr PIPELINE_CACHE_TTL)).cache.map Prod.fst)).Nodup ∧
    (get_by_input 0 "a"
        (store 0 "a" "r" [[1]] (initCacheMgr PIPELINE_CACHE_TTL))).2 =
      some ⟨"a", "r", [[1]], 0⟩ ∧
    dictGet "a"
        (get_by_input 0 "a"
          (store 0 "a" "r" [[1]] (initCacheMgr PIPELINE_CACHE_TTL))).1.cache =
      none ∧
    dictGet "r"
        (get_by_input 0 "a"
          (store 0 "a" "r" [[1]]
            (initCacheMgr PIPELINE_CACHE_TTL))).1.response_index = none :=
  ⟨by decide, by decide,
    ((claim7_per_entry_consistency.2.1 0 "a"
        (store 0 "a" "r" [[1]] (initCacheMgr PIPELINE_CACHE_TTL))
        ⟨"a", "r", [[1]], 0⟩ (by decide) (by decide) (by decide)).1),
    ((claim7_per_entry_consistency.2.1 0 "a"
        (store 0 "a" "r" [[1]] (initCacheMgr PIPELINE_CACHE_TTL))
        ⟨"a", "r", [[1]], 0⟩ (by decide) (by decide) (by decide)).2)⟩

end Xiaozhi
